import Mathlib

/- Verification of the core line-classification and record-reconstruction engine
   of src/pdf_to_excel_bank.py.

   Modelling conventions:
   * Python strings are lists of characters (`Str := List Char`).  The engine's
     inputs in scope are ASCII statement text, so `str.upper`/`str.isalpha` and
     the regex classes `\s`, `\w`, `\b` are modelled at their ASCII meaning.
   * Python `Decimal` values are modelled as exact rationals (`ℚ`); the decimal
     literal forms that can reach `Decimal(...)` here are sign + fixed-point
     digits, which the model parses exactly (exponent/NaN/Infinity forms cannot
     arise from the money grammar and are out of scope, yielding `none`).
   * `Decimal(...)` raising `InvalidOperation` is modelled as `Option ℚ`
     returning `none`; the `try/except` in `parse_line` is the `Option` match.
   * The regular expressions are compiled to deterministic matchers.  For
     MONEY_RX = (?<!\d)(\d{1,3}(?:,\d{3})*|\d+)\.\d{2}(?!\d) observe that at a
     given start position every non-maximal backtracking attempt fails on the
     same character as the maximal one or on a digit/comma where '.' is
     required, so the backtracking search collapses to one greedy check; the
     same argument applies to the bounded quantifiers of the date regexes.
     Lookbehind (?<!\d) only needs one bit of state: whether the previous
     character is a digit. -/

-- Rat's arithmetic is @[irreducible] by default, which only blocks elaborator
-- unfolding; making it semireducible lets `decide` evaluate concrete runs.
attribute [local semireducible] Rat.add Rat.sub Rat.mul Rat.inv Rat.ofScientific

abbrev Str := List Char

/-- Coerce a string literal to the character-list model. -/
def str (s : String) : Str := s.toList

/-- ASCII upper-casing of one character, as Python str.upper on the inputs in
scope (basic latin letters); this is exactly core `Char.toUpper`. -/
def upChar (c : Char) : Char := c.toUpper

/-- Python `s.upper()`. -/
def upperStr (s : Str) : Str := s.map upChar

/-- Python's `\s` / `str.strip()` whitespace class (ASCII). -/
def isPySpace (c : Char) : Bool :=
  c = ' ' || c = '\t' || c = '\n' || c = '\r' || c = '\x0b' || c = '\x0c'

/-- ASCII letter, Python `[A-Za-z]`. -/
def isAsciiAlpha (c : Char) : Bool :=
  ('a' ≤ c && c ≤ 'z') || ('A' ≤ c && c ≤ 'Z')

/-- Regex word character `\w` (ASCII): letter, digit or underscore. -/
def isWordChar (c : Char) : Bool := c.isDigit || isAsciiAlpha c || c = '_'

/-- Helper for `normspaces`: split a string into its maximal whitespace-free
chunks (the accumulator holds the current chunk reversed). -/
def wordsAux : Str → Str → List Str
| acc, [] => if acc.isEmpty then [] else [acc.reverse]
| acc, c :: r =>
  if isPySpace c then
    if acc.isEmpty then wordsAux [] r else acc.reverse :: wordsAux [] r
  else wordsAux (c :: acc) r

/-- The maximal whitespace-free chunks of a string. -/
def pyWords (s : Str) : List Str := wordsAux [] s

/-- `normspaces`: re.sub(r'\s+', ' ', s).strip().  Replacing every whitespace
run by one space and stripping the ends is the same as joining the
whitespace-free chunks with single spaces. -/
def normspaces (s : Str) : Str := List.intercalate [' '] (pyWords s)

/-- Does `w` occur at the start of `s`? -/
def headMatch : Str → Str → Bool
| [], _ => true
| _ :: _, [] => false
| a :: as, b :: bs => a = b && headMatch as bs

/-- Python `w in s`: does `w` occur as a contiguous substring of `s`? -/
def isSub (w : Str) : Str → Bool
| [] => headMatch w []
| c :: r => headMatch w (c :: r) || isSub w r

/-- Propositional form of substring occurrence. -/
def SubStr (w s : Str) : Prop := ∃ u v, s = u ++ w ++ v

/-- Python `s.split(sep, 1)` when `sep` occurs: the parts before and after the
first occurrence; `none` when `sep` does not occur. -/
def splitF (sep : Str) : Str → Option (Str × Str)
| [] => if headMatch sep [] then some ([], []) else none
| c :: r =>
  if headMatch sep (c :: r) then some ([], (c :: r).drop sep.length)
  else (splitF sep r).map (fun p => (c :: p.1, p.2))

/-- Python `s.rsplit(sep, 1)`: the parts before and after the rightmost
occurrence of `sep` (which may overlap an earlier occurrence, as in
"aaa".rsplit("aa", 1) = ["a", ""]); `(s, "")` when `sep` does not occur, so
`.1` is Python's `s.rsplit(sep, 1)[0]` in every case.  The rightmost
occurrence of `sep` in `l` is the first occurrence of `sep.reverse` in
`l.reverse`. -/
def rsplitB (sep l : Str) : Str × Str :=
  match splitF sep.reverse l.reverse with
  | some (bR, aR) => (aR.reverse, bR.reverse)
  | none => (l, [])

/-- Python `s.split(sep, 1)[1]`.  At every call site `sep` is a regex match of
`l`, so the no-occurrence case (an `IndexError` in Python) is unreachable; the
model makes it `[]` to stay total. -/
def splitAfterF (sep l : Str) : Str :=
  match splitF sep l with
  | some (_, a) => a
  | none => []

/-- Python `s[-n:]` for `n > 0`: the last `n` characters (all of `s` if shorter). -/
def takeRight (n : Nat) (s : Str) : Str := s.drop (s.length - n)

/-- Fueled helper for `replaceAll`. -/
def replAux (pat : Str) : Nat → Str → Str
| 0, l => l
| _ + 1, [] => []
| fuel + 1, c :: r =>
  if headMatch pat (c :: r) && !pat.isEmpty then replAux pat fuel ((c :: r).drop pat.length)
  else c :: replAux pat fuel r

/-- Python `s.replace(pat, "")` (every occurrence removed); used with the
nonempty matched date string. -/
def replaceAll (l pat : Str) : Str := replAux pat l.length l

/-- Drop the trailing characters satisfying `p`. -/
def dropEndWhile (p : Char → Bool) (l : Str) : Str := (l.reverse.dropWhile p).reverse

/-- Python `s.strip(chars)` generalised over a character predicate. -/
def stripBoth (p : Char → Bool) (l : Str) : Str := dropEndWhile p (l.dropWhile p)

/-- Python `s.strip()`. -/
def pyStrip (l : Str) : Str := stripBoth isPySpace l

/-- Python `s.strip(" -–—")` from the date-only branch of the assembler. -/
def stripDash (l : Str) : Str :=
  stripBoth (fun c => c = ' ' || c = '-' || c = '–' || c = '—') l

-- =========================
-- MONEY_RX = (?<!\d)(\d{1,3}(?:,\d{3})*|\d+)\.\d{2}(?!\d)
-- =========================

/-- Greedy `(?:,\d{3})*`: the maximal run of ",ddd" groups at the front, and
the rest.  (Backtracking to fewer groups can never help: the position after
fewer groups holds ',' where the tail needs '.'.) -/
def grabGroups : Str → Str × Str
| ',' :: a :: b :: c :: r =>
  if a.isDigit && b.isDigit && c.isDigit then
    let p := grabGroups r
    (',' :: a :: b :: c :: p.1, p.2)
  else ([], ',' :: a :: b :: c :: r)
| l => ([], l)

/-- The tail `\.\d{2}(?!\d)` of the money regex: a dot, two digits, and no
digit directly after. -/
def moneyTail : Str → Option (Str × Str)
| '.' :: d1 :: d2 :: r =>
  if d1.isDigit && d2.isDigit && (match r with | [] => true | c :: _ => !c.isDigit) then
    some (['.', d1, d2], r)
  else none
| _ => none

/-- One attempt of MONEY_RX at the current position (the lookbehind is checked
by the caller): the leading digit run, at most one comma-grouped continuation
when the run fits `\d{1,3}`, then the decimal tail.  Returns the matched
characters and the rest of the input. -/
def matchMoney (cs : Str) : Option (Str × Str) :=
  let ds := cs.takeWhile Char.isDigit
  if ds.isEmpty then none
  else
    let gp := if ds.length ≤ 3 then grabGroups (cs.dropWhile Char.isDigit)
              else ([], cs.dropWhile Char.isDigit)
    match moneyTail gp.2 with
    | some (t, r2) => some (ds ++ gp.1 ++ t, r2)
    | none => none

/-- Fueled scan of MONEY_RX.finditer: `pd` records whether the previous
character is a digit (the whole state the lookbehind `(?<!\d)` needs).  After
a match the scan resumes at its end with `pd := true` (a match ends in a
digit).  One unit of fuel is spent per consumed character, so `s.length` fuel
is never exhausted. -/
def moneyAuxF : Nat → Bool → Str → List Str
| 0, _, _ => []
| _ + 1, _, [] => []
| fuel + 1, pd, c :: r =>
  if pd then moneyAuxF fuel c.isDigit r
  else
    match matchMoney (c :: r) with
    | some (m, rest) => m :: moneyAuxF fuel true rest
    | none => moneyAuxF fuel c.isDigit r

/-- All MONEY_RX matches of `s`, in order: `[m.group(0) for m in
MONEY_RX.finditer(s)]`.  `MONEY_RX.search(s)` succeeds iff this is nonempty. -/
def moneyMatches (s : Str) : List Str := moneyAuxF s.length false s

-- =========================
-- DATE_RXES
-- =========================

/-- Date separator class: dash, slash or dot. -/
def isDateSep (c : Char) : Bool := c = '-' || c = '/' || c = '.'

/-- First date grammar, `\b` digits{1,2} sep digits{1,2} sep digits{2,4} `\b`
with sep a date separator, at the current position (leading boundary checked
by the caller).  Each bounded digit quantifier can only match the full digit
run (a shorter attempt faces a digit where a separator or the trailing
boundary is required). -/
def matchDate1 (cs : Str) : Option Str :=
  let d1 := cs.takeWhile Char.isDigit
  if d1.length < 1 || 2 < d1.length then none
  else
    match cs.dropWhile Char.isDigit with
    | s1 :: r1 =>
      if isDateSep s1 then
        let d2 := r1.takeWhile Char.isDigit
        if d2.length < 1 || 2 < d2.length then none
        else
          match r1.dropWhile Char.isDigit with
          | s2 :: r2 =>
            if isDateSep s2 then
              let d3 := r2.takeWhile Char.isDigit
              if 2 ≤ d3.length && d3.length ≤ 4
                  && (match r2.dropWhile Char.isDigit with
                      | [] => true
                      | c :: _ => !isWordChar c) then
                some (d1 ++ s1 :: (d2 ++ s2 :: d3))
              else none
            else none
          | [] => none
      else none
    | [] => none

/-- `\b(\d{1,2}\s+[A-Za-z]{3,9}\s+\d{2,4})\b` at the current position. -/
def matchDate2 (cs : Str) : Option Str :=
  let d1 := cs.takeWhile Char.isDigit
  if d1.length < 1 || 2 < d1.length then none
  else
    let r1 := cs.dropWhile Char.isDigit
    let sp1 := r1.takeWhile isPySpace
    if sp1.isEmpty then none
    else
      let r2 := r1.dropWhile isPySpace
      let ls := r2.takeWhile isAsciiAlpha
      if ls.length < 3 || 9 < ls.length then none
      else
        let r3 := r2.dropWhile isAsciiAlpha
        let sp2 := r3.takeWhile isPySpace
        if sp2.isEmpty then none
        else
          let r4 := r3.dropWhile isPySpace
          let d2 := r4.takeWhile Char.isDigit
          if 2 ≤ d2.length && d2.length ≤ 4
              && (match r4.dropWhile Char.isDigit with
                  | [] => true
                  | c :: _ => !isWordChar c) then
            some (d1 ++ sp1 ++ ls ++ sp2 ++ d2)
          else none

/-- Third date grammar, `\b` digits{1,2} sep letters{3} sep digits{2,4} `\b`
at the current position (`[A-Za-z]{3}` must be followed by a separator, so
the letter run is exactly 3 long). -/
def matchDate3 (cs : Str) : Option Str :=
  let d1 := cs.takeWhile Char.isDigit
  if d1.length < 1 || 2 < d1.length then none
  else
    match cs.dropWhile Char.isDigit with
    | s1 :: r1 =>
      if isDateSep s1 then
        let ls := r1.takeWhile isAsciiAlpha
        if ls.length = 3 then
          match r1.dropWhile isAsciiAlpha with
          | s2 :: r2 =>
            if isDateSep s2 then
              let d2 := r2.takeWhile Char.isDigit
              if 2 ≤ d2.length && d2.length ≤ 4
                  && (match r2.dropWhile Char.isDigit with
                      | [] => true
                      | c :: _ => !isWordChar c) then
                some (d1 ++ s1 :: (ls ++ s2 :: d2))
              else none
            else none
          | [] => none
        else none
      else none
    | [] => none

/-- `rx.search(s)` for one of the date matchers: try each position left to
right; `pw` says whether the previous character is a word character (all the
state the leading `\b` needs, since every date pattern starts with `\d`). -/
def scanAux (matcher : Str → Option Str) : Bool → Str → Option Str
| _, [] => none
| pw, c :: r =>
  match (if pw then none else matcher (c :: r)) with
  | some m => some m
  | none => scanAux matcher (isWordChar c) r

/-- `find_date`: the first match of the first DATE_RXES grammar that matches
anywhere in the line; `""` when none does. -/
def find_date (s : Str) : Str :=
  match scanAux matchDate1 false s with
  | some m => m
  | none =>
    match scanAux matchDate2 false s with
    | some m => m
    | none =>
      match scanAux matchDate3 false s with
      | some m => m
      | none => []

-- =========================
-- clean_money
-- =========================

/-- Numeric value of a digit character. -/
def digitVal (c : Char) : Nat := c.toNat - '0'.toNat

/-- Value of a digit string. -/
def natOf (ds : Str) : Nat := ds.foldl (fun acc c => 10 * acc + digitVal c) 0

/-- Value of integer part `ip` and fractional part `fp` of a decimal literal. -/
def decOfParts (ip fp : Str) : ℚ := (natOf ip : ℚ) + (natOf fp : ℚ) / (10 : ℚ) ^ fp.length

/-- Unsigned decimal literal accepted by `Decimal(...)`: `digits`,
`digits.digits`, `digits.` or `.digits` (at least one digit in total). -/
def parseDecCore (cs : Str) : Option ℚ :=
  let ip := cs.takeWhile Char.isDigit
  match cs.dropWhile Char.isDigit with
  | [] => if ip.isEmpty then none else some (decOfParts ip [])
  | '.' :: fs =>
    let fp := fs.takeWhile Char.isDigit
    if (fs.dropWhile Char.isDigit).isEmpty && !(ip.isEmpty && fp.isEmpty) then
      some (decOfParts ip fp)
    else none
  | _ => none

/-- `Decimal(s)` on the literal forms in scope: optional sign, then an
unsigned fixed-point literal; anything else raises `InvalidOperation`,
modelled as `none`. -/
def parseDec : Str → Option ℚ
| '-' :: r => (parseDecCore r).map (fun q => -q)
| '+' :: r => parseDecCore r
| cs => parseDecCore cs

/-- `clean_money(s) = Decimal(s.replace(',', '').strip())`, with the
conversion failure modelled as `none`. -/
def clean_money (s : Str) : Option ℚ := parseDec (pyStrip (s.filter (fun c => c != ',')))

-- =========================
-- Keyword hints and has_any
-- =========================

/-- CREDIT_HINTS. -/
def CREDIT_HINTS : List Str :=
  [str "CR", str "CREDIT", str "DEPOSIT", str "UPI/CR", str "REFUND", str "REVERSAL"]

/-- DEBIT_HINTS. -/
def DEBIT_HINTS : List Str :=
  [str "DR", str "DEBIT", str "WITHDRAWAL", str "W/D", str "ATM", str "POS",
   str "IRCTC", str "CHARGES"]

/-- `has_any(s, words)`: some word occurs in `s.upper()`. -/
def has_any (s : Str) (ws : List Str) : Bool := ws.any (fun w => isSub w (upperStr s))

-- =========================
-- parse_line
-- =========================

/-- One parsed transaction row (the dataclass ParsedRow). -/
structure ParsedRow where
  Date : Str
  Particulars : Str
  Debit : ℚ
  Credit : ℚ
  Balance : ℚ
  raw : Str
deriving DecidableEq

/-- The Debit/Credit decision of `parse_line` as a pair `(debit, credit)`,
for normalized line `line`, second-to-last money match `amtStr` with value
`amount`, last money value `balance`, and previous balance `prev`.  The
tolerance is the source's `Decimal("1.00")`. -/
def directionOf (line amtStr : Str) (amount balance : ℚ) (prev : Option ℚ) : ℚ × ℚ :=
  if has_any line CREDIT_HINTS then (0, amount)
  else if has_any line DEBIT_HINTS then (amount, 0)
  else
    match prev with
    | some pb =>
      if |balance - pb - amount| ≤ 1 then (0, amount)
      else if |balance - pb + amount| ≤ 1 then (amount, 0)
      else if (takeRight 3 (rsplitB amtStr line).1).contains '-' then (amount, 0)
      else (0, amount)
    | none =>
      if has_any (upperStr (takeRight 12 (rsplitB amtStr line).1)
                  ++ ' ' :: upperStr ((splitAfterF amtStr line).take 12)) DEBIT_HINTS then
        (amount, 0)
      else (0, amount)

/-- `re.sub(r'(CR|DR)\s*$', '', t, flags=IGNORECASE)`: remove one trailing
CR/DR tag (and the whitespace after it); leave `t` unchanged otherwise. -/
def stripCrDr (t : Str) : Str :=
  match t.reverse.dropWhile isPySpace with
  | c1 :: c2 :: rest =>
    if upChar c1 = 'R' && (upChar c2 = 'C' || upChar c2 = 'D') then rest.reverse else t
  | _ => t

/-- The Particulars text: remove the balance match (rightmost occurrence),
then the amount match (rightmost occurrence), strip a trailing CR/DR tag and
normalize spaces. -/
def particularsOf (line balStr amtStr : Str) : Str :=
  normspaces (stripCrDr (rsplitB amtStr (rsplitB balStr line).1).1)

/-- `parse_line` generalised over the money-string conversion (the source's
`clean_money`); the `try/except InvalidOperation` is the match on the two
conversion results. -/
def parse_line_with (conv : Str → Option ℚ) (line0 : Str) (prev_balance : Option ℚ) :
    Option ParsedRow :=
  let line := normspaces line0
  match (moneyMatches line).reverse with
  | balStr :: amtStr :: _ =>
    match conv balStr, conv amtStr with
    | some balance, some amount =>
      some { Date := find_date line
             Particulars := particularsOf line balStr amtStr
             Debit := (directionOf line amtStr amount balance prev_balance).1
             Credit := (directionOf line amtStr amount balance prev_balance).2
             Balance := balance
             raw := line0 }
    | _, _ => none
  | _ => none

/-- `parse_line` of the source. -/
def parse_line (line : Str) (prev_balance : Option ℚ) : Option ParsedRow :=
  parse_line_with clean_money line prev_balance

-- =========================
-- parse_lines_to_rows
-- =========================

/-- The sequential state of the assembler loop. -/
structure AState where
  rows : List ParsedRow
  prev_balance : Option ℚ
  pending_desc : List Str
  pending_date : Str
deriving DecidableEq

/-- Apply the pending date and pending description to a freshly parsed row
(the two `if`s inside the transaction branch of the loop). -/
def absorbPending (st : AState) (r : ParsedRow) : ParsedRow :=
  { r with
    Date := if r.Date.isEmpty && !st.pending_date.isEmpty then st.pending_date else r.Date
    Particulars :=
      if !st.pending_desc.isEmpty then
        normspaces (List.intercalate [' '] st.pending_desc ++ ' ' :: r.Particulars)
      else r.Particulars }

/-- One iteration of the assembler loop of `parse_lines_to_rows`. -/
def stepLine (st : AState) (ln : Str) : AState :=
  let dt := find_date ln
  if !dt.isEmpty && (moneyMatches ln).isEmpty then
    let tail := stripDash (normspaces (replaceAll ln dt))
    { st with
      pending_date := dt
      pending_desc := if tail.isEmpty then st.pending_desc else st.pending_desc ++ [tail] }
  else
    match parse_line ln st.prev_balance with
    | some parsed =>
      { st with
        rows := st.rows ++ [absorbPending st parsed]
        prev_balance := some parsed.Balance
        pending_desc := [] }
    | none =>
      if ln.any isAsciiAlpha then { st with pending_desc := st.pending_desc ++ [ln] }
      else st

/-- The initial assembler state. -/
def initState : AState := { rows := [], prev_balance := none, pending_desc := [], pending_date := [] }

/-- The rows accumulated by the loop, before the date forward-fill. -/
def assembleRows (lines : List Str) : List ParsedRow :=
  (lines.foldl stepLine initState).rows

/-- Forward-fill helper carrying the last non-empty date seen so far. -/
def ffillAux (last : Str) : List Str → List Str
| [] => []
| d :: ds =>
  let d' := if d.isEmpty then last else d
  d' :: ffillAux d' ds

/-- The date forward-fill pass
`df["Date"].replace("", pd.NA).ffill().fillna("")` on the date column. -/
def fillForward (ds : List Str) : List Str := ffillAux [] ds

/-- The last non-empty entry of a date list (`""` if there is none); used to
state what forward-fill produces. -/
def lastNonEmpty (ds : List Str) : Str :=
  ds.foldl (fun acc d => if d.isEmpty then acc else d) []

/-- Overwrite the Date column of a row list. -/
def setDates (rows : List ParsedRow) (ds : List Str) : List ParsedRow :=
  List.zipWith (fun r d => { r with Date := d }) rows ds

/-- `parse_lines_to_rows`: run the loop, then forward-fill the Date column.
(The pandas export converts amounts to binary floats for the spreadsheet;
the model keeps the exact decimal values, and keeps the `raw` field.) -/
def parse_lines_to_rows (lines : List Str) : List ParsedRow :=
  let rows := assembleRows lines
  setDates rows (fillForward (rows.map ParsedRow.Date))

-- =========================
-- easyocr_lines clustering
-- =========================

/-- Stable insertion into a sorted list: the new element goes after every
element `≤` it, which makes `sortStable` observe Python's stable `list.sort`. -/
def insSorted (le : α → α → Bool) (x : α) : List α → List α
| [] => [x]
| b :: bs => if le b x then b :: insSorted le x bs else x :: b :: bs

/-- Stable sort (insertion sort, processing the input left to right). -/
def sortStable (le : α → α → Bool) (l : List α) : List α :=
  l.foldl (fun acc x => insSorted le x acc) []

/-- Sort key `(y_center, x_left)` of the word tuples `(y, x, text)`. -/
def wordLeYX (a b : ℚ × ℚ × Str) : Bool :=
  decide (a.1 < b.1) || (decide (a.1 = b.1) && decide (a.2.1 ≤ b.2.1))

/-- Sort key `x_left` used inside one line. -/
def wordLeX (a b : ℚ × ℚ × Str) : Bool := decide (a.2.1 ≤ b.2.1)

/-- Flush one clustered line: sort its words left-to-right, join with spaces,
normalize. -/
def finishLine (cur : List (ℚ × ℚ × Str)) : Str :=
  normspaces (List.intercalate [' '] ((sortStable wordLeX cur).map (fun w => w.2.2)))

/-- The greedy grouping loop of `easyocr_lines`: `cy` is the anchor y of the
current line (set when the line is started and not updated while words join
it), `cur` the words of the current line. -/
def clusterAux (th : ℚ) : ℚ → List (ℚ × ℚ × Str) → List (ℚ × ℚ × Str) → List Str
| _, cur, [] => if cur.isEmpty then [] else [finishLine cur]
| cy, cur, w :: ws =>
  if |w.1 - cy| ≤ th then clusterAux th cy (cur ++ [w]) ws
  else finishLine cur :: clusterAux th w.1 [w] ws

/-- The line-clustering stage of `easyocr_lines` on word tuples `(y_center,
x_left, text)`: sort by `(y, x)`, then group greedily with the pixel threshold
10.0, starting a new line when a word's y differs from the current line's
anchor by more than the threshold. -/
def easyocr_cluster (words : List (ℚ × ℚ × Str)) : List Str :=
  match sortStable wordLeYX words with
  | [] => []
  | w0 :: rest => clusterAux 10 w0.1 [] (w0 :: rest)

-- =========================
-- Lemmas: substrings
-- =========================

theorem headMatch_iff (w : Str) : ∀ s, headMatch w s = true ↔ ∃ v, s = w ++ v := by
  induction w with
  | nil => intro s; simp [headMatch]
  | cons a as ih =>
    intro s
    cases s with
    | nil => simp [headMatch]
    | cons b bs =>
      simp only [headMatch, Bool.and_eq_true, decide_eq_true_eq, ih bs, List.cons_append,
        List.cons.injEq]
      constructor
      · rintro ⟨rfl, v, rfl⟩; exact ⟨v, rfl, rfl⟩
      · rintro ⟨v, rfl, rfl⟩; exact ⟨rfl, v, rfl⟩

theorem isSub_iff (w : Str) : ∀ s, isSub w s = true ↔ SubStr w s := by
  intro s
  induction s with
  | nil =>
    simp only [isSub, headMatch_iff, SubStr]
    constructor
    · rintro ⟨v, hv⟩
      exact ⟨[], v, hv⟩
    · rintro ⟨u, v, huv⟩
      rcases u with _ | ⟨c, u⟩
      · exact ⟨v, huv⟩
      · simp at huv
  | cons c r ih =>
    simp only [isSub, Bool.or_eq_true, headMatch_iff, ih, SubStr]
    constructor
    · rintro (⟨v, hv⟩ | ⟨u, v, huv⟩)
      · exact ⟨[], v, hv⟩
      · exact ⟨c :: u, v, by simp [huv]⟩
    · rintro ⟨u, v, huv⟩
      rcases u with _ | ⟨b, u⟩
      · exact Or.inl ⟨v, huv⟩
      · simp only [List.cons_append, List.cons.injEq] at huv
        exact Or.inr ⟨u, v, huv.2⟩

theorem subStr_trans {w x s : Str} (h1 : SubStr w x) (h2 : SubStr x s) : SubStr w s := by
  rcases h1 with ⟨u1, v1, rfl⟩
  rcases h2 with ⟨u2, v2, rfl⟩
  exact ⟨u2 ++ u1, v1 ++ v2, by simp⟩

theorem subStr_map {w s : Str} (f : Char → Char) (h : SubStr w s) :
    SubStr (w.map f) (s.map f) := by
  rcases h with ⟨u, v, rfl⟩
  exact ⟨u.map f, v.map f, by simp⟩

theorem subStr_of_take {s : Str} (n : Nat) : SubStr (s.take n) s :=
  ⟨[], s.drop n, by simp⟩

theorem subStr_of_takeRight {s : Str} (n : Nat) : SubStr (takeRight n s) s :=
  ⟨s.take (s.length - n), [], by simp [takeRight]⟩

/-- A substring of `a ++ " " ++ b` that contains no space lies inside `a` or
inside `b`: first, such a prefix of `a ++ " " ++ b` is a prefix of `a`. -/
theorem pre_of_noSpace {w : Str} (hw : ' ' ∉ w) :
    ∀ {a b : Str}, (∃ v, a ++ ' ' :: b = w ++ v) → ∃ v, a = w ++ v := by
  induction w with
  | nil => intro a b _; exact ⟨a, rfl⟩
  | cons c w' ih =>
    intro a b h
    rcases h with ⟨v, hv⟩
    rcases a with _ | ⟨x, a'⟩
    · simp only [List.nil_append, List.cons_append, List.cons.injEq] at hv
      exact (hw (List.mem_cons.mpr (Or.inl hv.1))).elim
    · simp only [List.cons_append, List.cons.injEq] at hv
      have hw' : ' ' ∉ w' := fun hm => hw (List.mem_cons_of_mem _ hm)
      rcases ih hw' ⟨v, hv.2⟩ with ⟨v', hv'⟩
      exact ⟨v', by simp [hv.1, hv']⟩

theorem subStr_split_space {w : Str} (hw : ' ' ∉ w) :
    ∀ {a b : Str}, SubStr w (a ++ ' ' :: b) → SubStr w a ∨ SubStr w b := by
  suffices h : ∀ (u : Str) {a b v : Str}, a ++ ' ' :: b = u ++ w ++ v →
      SubStr w a ∨ SubStr w b by
    rintro a b ⟨u, v, huv⟩
    exact h u huv
  intro u
  induction u with
  | nil =>
    intro a b v huv
    rcases pre_of_noSpace hw ⟨v, by simpa using huv⟩ with ⟨v', hv'⟩
    exact Or.inl ⟨[], v', by simpa using hv'⟩
  | cons x u' ih =>
    intro a b v huv
    rcases a with _ | ⟨y, a'⟩
    · simp only [List.nil_append, List.cons_append, List.cons.injEq] at huv
      exact Or.inr ⟨u', v, huv.2⟩
    · simp only [List.cons_append, List.cons.injEq] at huv
      rcases ih huv.2 with h | h
      · rcases h with ⟨u2, v2, hv2⟩
        exact Or.inl ⟨y :: u2, v2, by simp [hv2]⟩
      · exact Or.inr h

-- =========================
-- Lemmas: split helpers
-- =========================

theorem splitF_eq {sep : Str} : ∀ {l b a : Str}, splitF sep l = some (b, a) → l = b ++ sep ++ a := by
  intro l
  induction l with
  | nil =>
    intro b a h
    simp only [splitF] at h
    split at h
    · rcases (headMatch_iff sep []).mp (by assumption) with ⟨v, hv⟩
      rcases List.append_eq_nil.mp hv.symm with ⟨h1, h2⟩
      simp only [Option.some.injEq, Prod.mk.injEq] at h
      simp [← h.1, ← h.2, h1]
    · exact absurd h (by simp)
  | cons c r ih =>
    intro b a h
    simp only [splitF] at h
    split at h
    · rcases (headMatch_iff sep (c :: r)).mp (by assumption) with ⟨v, hv⟩
      simp only [Option.some.injEq, Prod.mk.injEq] at h
      rw [← h.1, ← h.2, hv]
      simp [List.drop_left' (by rfl)]
    · rcases hs : splitF sep r with _ | ⟨b', a'⟩
      · rw [hs] at h; simp at h
      · rw [hs] at h
        simp only [Option.map_some', Option.some.injEq, Prod.mk.injEq] at h
        rw [← h.1, ← h.2]
        simp [ih hs]

theorem rsplitB_fst_pre (sep l : Str) : ∃ v, l = (rsplitB sep l).1 ++ v := by
  rcases h : splitF sep.reverse l.reverse with _ | ⟨bR, aR⟩
  · refine ⟨[], ?_⟩
    simp [rsplitB, h]
  · refine ⟨sep ++ bR.reverse, ?_⟩
    simp only [rsplitB, h]
    have h2 := congrArg List.reverse (splitF_eq h)
    rw [List.reverse_reverse] at h2
    rw [h2]
    simp

theorem splitAfterF_suf (sep l : Str) : ∃ u, l = u ++ splitAfterF sep l := by
  rcases h : splitF sep l with _ | ⟨b, a⟩
  · refine ⟨l, ?_⟩
    simp [splitAfterF, h]
  · refine ⟨b ++ sep, ?_⟩
    have h2 := splitF_eq h
    simp only [splitAfterF, h]
    simpa using h2

theorem subStr_rsplitB_takeRight (n : Nat) (sep l : Str) :
    SubStr (takeRight n (rsplitB sep l).1) l := by
  rcases rsplitB_fst_pre sep l with ⟨v, hv⟩
  refine subStr_trans (subStr_of_takeRight n) ⟨[], v, ?_⟩
  conv_lhs => rw [hv]
  simp

theorem subStr_splitAfterF_take (n : Nat) (sep l : Str) :
    SubStr ((splitAfterF sep l).take n) l := by
  rcases splitAfterF_suf sep l with ⟨u, hu⟩
  refine subStr_trans (subStr_of_take n) ⟨u, [], ?_⟩
  conv_lhs => rw [hu]
  simp

-- =========================
-- Lemmas: upper-casing
-- =========================

theorem toNat_ofNat_valid {n : Nat} (h : n.isValidChar) : (Char.ofNat n).toNat = n := by
  rw [Char.ofNat, dif_pos h]
  rfl

theorem upChar_idem (c : Char) : upChar (upChar c) = upChar c := by
  simp only [upChar, Char.toUpper]
  by_cases h : c.toNat ≥ 97 ∧ c.toNat ≤ 122
  · rw [if_pos h]
    have hv : (c.toNat - 32).isValidChar := Or.inl (by omega)
    have ht : (Char.ofNat (c.toNat - 32)).toNat = c.toNat - 32 := toNat_ofNat_valid hv
    rw [if_neg (by omega)]
  · rw [if_neg h, if_neg h]

theorem upperStr_idem (s : Str) : upperStr (upperStr s) = upperStr s := by
  simp [upperStr, List.map_map, Function.comp, upChar_idem]

theorem upChar_space : upChar ' ' = ' ' := by decide

-- =========================
-- Lemmas: has_any and the context window
-- =========================

theorem has_any_eq_false_iff (s : Str) (ws : List Str) :
    has_any s ws = false ↔ ∀ w ∈ ws, ¬ SubStr w (upperStr s) := by
  simp only [has_any, List.any_eq_false, Bool.not_eq_true]
  constructor
  · intro h w hw hsub
    have := h w hw
    rw [(Bool.not_eq_true _).symm] at this
    exact this ((isSub_iff w (upperStr s)).mpr hsub)
  · intro h w hw
    rw [(Bool.not_eq_true _).symm]
    intro hc
    exact h w hw ((isSub_iff w (upperStr s)).mp hc)

/-- Every DEBIT hint is space-free. -/
theorem debit_hints_no_space : ∀ w ∈ DEBIT_HINTS, ' ' ∉ w := by decide

/-- If `w` occurs in the double-uppercasing of a substring `s` of `t`, it
occurs in `t.upper()`. -/
theorem subStr_upper_lift {w s t : Str} (h : SubStr w (upperStr (upperStr s)))
    (hst : SubStr s t) : SubStr w (upperStr t) := by
  rw [upperStr_idem] at h
  exact subStr_trans h (subStr_map upChar hst)

/-- The 12-character context window around the amount cannot contain a debit
hint that the whole (normalized) line does not contain: the window is built
from upper-cased substrings of the line joined by a space, and no hint
contains a space. -/
theorem context_debit_eq_false (line amtStr : Str)
    (hline : has_any line DEBIT_HINTS = false) :
    has_any (upperStr (takeRight 12 (rsplitB amtStr line).1)
             ++ ' ' :: upperStr ((splitAfterF amtStr line).take 12)) DEBIT_HINTS = false := by
  rw [has_any_eq_false_iff]
  intro w hw hsub
  rw [has_any_eq_false_iff] at hline
  have hnsp : ' ' ∉ w := debit_hints_no_space w hw
  have hctx : upperStr (upperStr (takeRight 12 (rsplitB amtStr line).1)
       ++ ' ' :: upperStr ((splitAfterF amtStr line).take 12))
      = upperStr (upperStr (takeRight 12 (rsplitB amtStr line).1))
        ++ ' ' :: upperStr (upperStr ((splitAfterF amtStr line).take 12)) := by
    simp [upperStr, upChar_space]
  rw [hctx] at hsub
  rcases subStr_split_space hnsp hsub with h | h
  · exact hline w hw (subStr_upper_lift h (subStr_rsplitB_takeRight 12 amtStr line))
  · exact hline w hw (subStr_upper_lift h (subStr_splitAfterF_take 12 amtStr line))

-- =========================
-- Lemmas: money matches are made of digits, commas and dots
-- =========================

/-- Character class of a money match. -/
def isMoneyChar (c : Char) : Prop := c.isDigit = true ∨ c = ',' ∨ c = '.'

theorem grabGroups_spec (l : Str) :
    l = (grabGroups l).1 ++ (grabGroups l).2 ∧ ∀ c ∈ (grabGroups l).1, isMoneyChar c := by
  induction l using grabGroups.induct with
  | case1 a b c r hcond ih =>
    simp only [grabGroups, hcond, if_true]
    constructor
    · conv_lhs => rw [ih.1]
      simp
    · intro x hx
      simp only [List.mem_cons] at hx
      simp only [Bool.and_eq_true] at hcond
      rcases hx with rfl | rfl | rfl | rfl | hx
      · exact Or.inr (Or.inl rfl)
      · exact Or.inl hcond.1.1
      · exact Or.inl hcond.1.2
      · exact Or.inl hcond.2
      · exact ih.2 x hx
  | case2 a b c r hcond =>
    simp [grabGroups, hcond]
  | case3 l hne =>
    have hg : grabGroups l = ([], l) := by
      unfold grabGroups
      split
      · rename_i a b c r
        exact absurd rfl (by intro h; exact hne a b c r h)
      · rfl
    simp [hg]

theorem moneyTail_spec {l t r : Str} (h : moneyTail l = some (t, r)) :
    l = t ++ r ∧ t ≠ [] ∧ ∀ c ∈ t, isMoneyChar c := by
  unfold moneyTail at h
  split at h
  · rename_i d1 d2 r'
    split at h
    · rename_i hcond
      simp only [Option.some.injEq, Prod.mk.injEq] at h
      simp only [Bool.and_eq_true] at hcond
      refine ⟨by rw [← h.1, ← h.2]; rfl, by rw [← h.1]; simp, ?_⟩
      intro c hc
      rw [← h.1] at hc
      simp only [List.mem_cons] at hc
      rcases hc with rfl | rfl | rfl | hc
      · exact Or.inr (Or.inr rfl)
      · exact Or.inl hcond.1.1
      · exact Or.inl hcond.1.2
      · simp at hc
    · exact absurd h (by simp)
  · exact absurd h (by simp)

theorem takeWhile_isMoneyChar (cs : Str) :
    ∀ c ∈ cs.takeWhile Char.isDigit, isMoneyChar c := fun _ hc =>
  Or.inl (List.mem_takeWhile_imp hc)

theorem matchMoney_spec {cs m rest : Str} (h : matchMoney cs = some (m, rest)) :
    cs = m ++ rest ∧ m ≠ [] ∧ ∀ c ∈ m, isMoneyChar c := by
  simp only [matchMoney] at h
  by_cases hempty : (cs.takeWhile Char.isDigit).isEmpty
  · rw [if_pos hempty] at h
    exact absurd h (by simp)
  · rw [if_neg hempty] at h
    rcases hgp : (if (cs.takeWhile Char.isDigit).length ≤ 3 then
        grabGroups (cs.dropWhile Char.isDigit) else ([], cs.dropWhile Char.isDigit))
      with ⟨gs, g2⟩
    simp only [hgp] at h
    rcases hmt : moneyTail g2 with _ | ⟨t, r2⟩
    · rw [hmt] at h; exact absurd h (by simp)
    · rw [hmt] at h
      simp only [Option.some.injEq, Prod.mk.injEq] at h
      rcases moneyTail_spec hmt with ⟨hg2, htne, htc⟩
      have hgs : cs.dropWhile Char.isDigit = gs ++ g2 ∧ ∀ c ∈ gs, isMoneyChar c := by
        split at hgp
        · rcases grabGroups_spec (cs.dropWhile Char.isDigit) with ⟨h1, h2⟩
          rw [hgp] at h1 h2
          exact ⟨h1, h2⟩
        · simp only [Prod.mk.injEq] at hgp
          exact ⟨by rw [← hgp.1, ← hgp.2]; simp, by rw [← hgp.1]; simp⟩
      refine ⟨?_, ?_, ?_⟩
      · rw [← h.1, ← h.2]
        conv_lhs => rw [← List.takeWhile_append_dropWhile (p := Char.isDigit) (l := cs)]
        rw [hgs.1, hg2]
        simp
      · rw [← h.1]
        intro hc
        exact htne (List.append_eq_nil.mp hc).2
      · intro c hc
        rw [← h.1] at hc
        simp only [List.mem_append] at hc
        rcases hc with (hc | hc) | hc
        · exact takeWhile_isMoneyChar cs c hc
        · exact hgs.2 c hc
        · exact htc c hc

theorem moneyAuxF_class :
    ∀ (fuel : Nat) (pd : Bool) (cs : Str) (m : Str), m ∈ moneyAuxF fuel pd cs →
      ∀ c ∈ m, isMoneyChar c := by
  intro fuel
  induction fuel with
  | zero => intro pd cs m hm; simp [moneyAuxF] at hm
  | succ n ih =>
    intro pd cs m hm
    cases cs with
    | nil => simp [moneyAuxF] at hm
    | cons c r =>
      simp only [moneyAuxF] at hm
      split at hm
      · exact ih _ _ _ hm
      · rcases hmm : matchMoney (c :: r) with _ | ⟨m', rest⟩
        · rw [hmm] at hm
          exact ih _ _ _ hm
        · rw [hmm] at hm
          simp only [List.mem_cons] at hm
          rcases hm with rfl | hm
          · exact (matchMoney_spec hmm).2.2
          · exact ih _ _ _ hm

theorem moneyMatches_class {s m : Str} (hm : m ∈ moneyMatches s) : ∀ c ∈ m, isMoneyChar c :=
  moneyAuxF_class s.length false s m hm

-- =========================
-- Lemmas: clean_money on money-class strings is a nonnegative decimal
-- =========================

theorem decOfParts_nonneg (ip fp : Str) : 0 ≤ decOfParts ip fp := by
  unfold decOfParts
  positivity

theorem parseDecCore_nonneg {cs : Str} {q : ℚ} (h : parseDecCore cs = some q) : 0 ≤ q := by
  simp only [parseDecCore] at h
  split at h
  · split at h
    · exact absurd h (by simp)
    · exact (Option.some.inj h) ▸ decOfParts_nonneg _ _
  · split at h
    · exact (Option.some.inj h) ▸ decOfParts_nonneg _ _
    · exact absurd h (by simp)
  · exact absurd h (by simp)

theorem parseDec_nonneg {cs : Str} {q : ℚ} (hnm : '-' ∉ cs) (h : parseDec cs = some q) :
    0 ≤ q := by
  unfold parseDec at h
  split at h
  · rename_i r
    exact (hnm (List.mem_cons_self _ _)).elim
  · rcases hc : parseDecCore _ with _ | q'
    · rw [hc] at h; exact absurd h (by simp)
    · rw [hc] at h
      simp only [Option.map_some', Option.some.injEq] at h
      exact h ▸ parseDecCore_nonneg hc
  · exact parseDecCore_nonneg h

theorem mem_dropEndWhile {p : Char → Bool} {c : Char} {l : Str} (h : c ∈ dropEndWhile p l) :
    c ∈ l := by
  unfold dropEndWhile at h
  rw [List.mem_reverse] at h
  have := (List.dropWhile_sublist (p := p) (l := l.reverse)).mem h
  rwa [List.mem_reverse] at this

theorem mem_stripBoth {p : Char → Bool} {c : Char} {l : Str} (h : c ∈ stripBoth p l) :
    c ∈ l := by
  unfold stripBoth at h
  exact (List.dropWhile_sublist (p := p) (l := l)).mem (mem_dropEndWhile h)

theorem clean_money_nonneg {s : Str} {q : ℚ} (hclass : ∀ c ∈ s, isMoneyChar c)
    (h : clean_money s = some q) : 0 ≤ q := by
  refine parseDec_nonneg ?_ h
  intro hmem
  have h1 : '-' ∈ s := List.Sublist.mem (mem_stripBoth hmem) (List.filter_sublist s)
  exact absurd (hclass '-' h1) (by unfold isMoneyChar; decide)

/-- The value of a money match converted by `clean_money` is nonnegative: the
match has no sign character. -/
theorem clean_money_of_match_nonneg {line m : Str} {q : ℚ} (hm : m ∈ moneyMatches line)
    (h : clean_money m = some q) : 0 ≤ q :=
  clean_money_nonneg (moneyMatches_class hm) h

-- =========================
-- Lemmas: the direction decision
-- =========================

theorem directionOf_cases (line amtStr : Str) (a b : ℚ) (prev : Option ℚ) :
    directionOf line amtStr a b prev = (a, 0) ∨ directionOf line amtStr a b prev = (0, a) := by
  unfold directionOf
  split
  · exact Or.inr rfl
  split
  · exact Or.inl rfl
  split
  · split
    · exact Or.inr rfl
    split
    · exact Or.inl rfl
    split
    · exact Or.inl rfl
    · exact Or.inr rfl
  · split
    · exact Or.inl rfl
    · exact Or.inr rfl

theorem directionOf_credit (line amtStr : Str) (a b : ℚ) (prev : Option ℚ)
    (hc : has_any line CREDIT_HINTS = true) :
    directionOf line amtStr a b prev = (0, a) := by
  unfold directionOf
  rw [if_pos hc]

theorem directionOf_debit (line amtStr : Str) (a b : ℚ) (prev : Option ℚ)
    (hc : has_any line CREDIT_HINTS = false)
    (hd : has_any line DEBIT_HINTS = true) :
    directionOf line amtStr a b prev = (a, 0) := by
  unfold directionOf
  rw [if_neg (by simp [hc]), if_pos hd]

theorem directionOf_some_pb (line amtStr : Str) (a b pb : ℚ)
    (hc : has_any line CREDIT_HINTS = false)
    (hd : has_any line DEBIT_HINTS = false) :
    directionOf line amtStr a b (some pb) =
      if |b - pb - a| ≤ 1 then (0, a)
      else if |b - pb + a| ≤ 1 then (a, 0)
      else if (takeRight 3 (rsplitB amtStr line).1).contains '-' then (a, 0)
      else (0, a) := by
  unfold directionOf
  rw [if_neg (by simp [hc]), if_neg (by simp [hd])]

theorem directionOf_none (line amtStr : Str) (a b : ℚ)
    (hc : has_any line CREDIT_HINTS = false)
    (hd : has_any line DEBIT_HINTS = false) :
    directionOf line amtStr a b none = (0, a) := by
  unfold directionOf
  rw [if_neg (by simp [hc]), if_neg (by simp [hd])]
  simp only []
  rw [if_neg (by simp [context_debit_eq_false line amtStr hd])]

-- =========================
-- Lemmas: running parse_line
-- =========================

theorem parse_line_with_eq (conv : Str → Option ℚ) (line0 : Str) (prev : Option ℚ)
    {balStr amtStr : Str} {rest : List Str} {b a : ℚ}
    (hrev : (moneyMatches (normspaces line0)).reverse = balStr :: amtStr :: rest)
    (hb : conv balStr = some b) (ha : conv amtStr = some a) :
    parse_line_with conv line0 prev = some
      { Date := find_date (normspaces line0)
        Particulars := particularsOf (normspaces line0) balStr amtStr
        Debit := (directionOf (normspaces line0) amtStr a b prev).1
        Credit := (directionOf (normspaces line0) amtStr a b prev).2
        Balance := b
        raw := line0 } := by
  simp only [parse_line_with]
  simp only [hrev, hb, ha]

theorem parse_line_with_inv {conv : Str → Option ℚ} {line0 : Str} {prev : Option ℚ}
    {row : ParsedRow} (h : parse_line_with conv line0 prev = some row) :
    ∃ balStr amtStr rest b a,
      (moneyMatches (normspaces line0)).reverse = balStr :: amtStr :: rest ∧
      conv balStr = some b ∧ conv amtStr = some a ∧
      row.Balance = b ∧
      row.Debit = (directionOf (normspaces line0) amtStr a b prev).1 ∧
      row.Credit = (directionOf (normspaces line0) amtStr a b prev).2 := by
  simp only [parse_line_with] at h
  rcases hrev : (moneyMatches (normspaces line0)).reverse with _ | ⟨bs, _ | ⟨as, rest⟩⟩
  · simp only [hrev] at h; simp at h
  · simp only [hrev] at h; simp at h
  · simp only [hrev] at h
    rcases hb : conv bs with _ | b
    · simp only [hb] at h; simp at h
    · simp only [hb] at h
      rcases ha : conv as with _ | a
      · simp only [ha] at h; simp at h
      · simp only [ha, Option.some.injEq] at h
        obtain rfl := h.symm
        exact ⟨bs, as, rest, b, a, rfl, hb, ha, rfl, rfl, rfl⟩

-- =========================
-- Claim theorems
-- =========================

/-- Claim C1: on every normalized line with at least two money-grammar
matches, `parse_line` takes the rightmost match (as a decimal) for Balance and
the second-rightmost for the movement Amount, which lands in exactly one of
Debit/Credit while the other stays 0 — regardless of anything else (other
numerals included) on the line. -/
theorem c1_rightmost_money (line : Str) (prev : Option ℚ) (balStr amtStr : Str)
    (rest : List Str) (b a : ℚ)
    (hrev : (moneyMatches (normspaces line)).reverse = balStr :: amtStr :: rest)
    (hb : clean_money balStr = some b) (ha : clean_money amtStr = some a) :
    ∃ row, parse_line line prev = some row ∧ row.Balance = b ∧
      ((row.Debit = a ∧ row.Credit = 0) ∨ (row.Debit = 0 ∧ row.Credit = a)) := by
  refine ⟨_, parse_line_with_eq clean_money line prev hrev hb ha, rfl, ?_⟩
  rcases directionOf_cases (normspaces line) amtStr a b prev with h | h <;> rw [h]
  · exact Or.inl ⟨rfl, rfl⟩
  · exact Or.inr ⟨rfl, rfl⟩

/-- Witness for C1 on the line "ID 9999 45.00 100.00" (the extra numeral 9999
is not money-grammar, the two money matches are 45.00 and 100.00). -/
theorem c1_rightmost_money_w :
    clean_money (str "100.00") = some 100 ∧ clean_money (str "45.00") = some 45 ∧
    (moneyMatches (normspaces (str "ID 9999 45.00 100.00"))).reverse
      = [str "100.00", str "45.00"] ∧
    (∃ row, parse_line (str "ID 9999 45.00 100.00") none = some row ∧ row.Balance = 100 ∧
      ((row.Debit = 45 ∧ row.Credit = 0) ∨ (row.Debit = 0 ∧ row.Credit = 45))) :=
  ⟨by decide, by decide, by decide,
   c1_rightmost_money (str "ID 9999 45.00 100.00") none (str "100.00") (str "45.00") [] 100 45
     (by decide) (by decide) (by decide)⟩

/-- Claim C2 counterexample: the line "PAY 0.00 500.00" parses to a record
(a non-None result of `parse_line`, hence an emitted row) whose Debit and
Credit are BOTH zero, refuting "exactly one of Debit/Credit is non-zero". -/
theorem c2_zero_amount_cx :
    (parse_line (str "PAY 0.00 500.00") none).map (fun r => (r.Debit, r.Credit))
      = some (0, 0) := by decide

/-- Claim C2 (amended): every record emitted by `parse_line` has at most one
of Debit/Credit non-zero (both are zero exactly when the movement amount
parses to zero, as on a "0.00" amount). -/
theorem c2_at_most_one_nonzero (line : Str) (prev : Option ℚ) (row : ParsedRow)
    (h : parse_line line prev = some row) : row.Debit = 0 ∨ row.Credit = 0 := by
  unfold parse_line at h
  rcases parse_line_with_inv h with ⟨bs, as, rest, b, a, hrev, hb, ha, hbal, hD, hC⟩
  rcases directionOf_cases (normspaces line) as a b prev with hd | hd
  · rw [hD, hC, hd]
    exact Or.inr rfl
  · rw [hD, hC, hd]
    exact Or.inl rfl

/-- Witness for the amended C2. -/
theorem c2_at_most_one_nonzero_w :
    ∃ row, parse_line (str "AB 10.00 20.00") none = some row ∧
      (row.Debit = 0 ∨ row.Credit = 0) := by
  rcases hp : parse_line (str "AB 10.00 20.00") none with _ | row
  · exact absurd hp (by decide)
  · exact ⟨row, rfl, c2_at_most_one_nonzero (str "AB 10.00 20.00") none row hp⟩

/-- Claim C10: every record returned by `parse_line` has nonnegative Debit,
Credit and Balance (the money grammar is unsigned), and at most one of
Debit/Credit is non-zero. -/
theorem c10_nonneg_amounts (line : Str) (prev : Option ℚ) (row : ParsedRow)
    (h : parse_line line prev = some row) :
    0 ≤ row.Debit ∧ 0 ≤ row.Credit ∧ 0 ≤ row.Balance ∧
      (row.Debit = 0 ∨ row.Credit = 0) := by
  unfold parse_line at h
  rcases parse_line_with_inv h with ⟨bs, as, rest, b, a, hrev, hb, ha, hbal, hD, hC⟩
  have hbsmem : bs ∈ moneyMatches (normspaces line) := by
    rw [← List.mem_reverse, hrev]
    exact List.mem_cons_self _ _
  have hasmem : as ∈ moneyMatches (normspaces line) := by
    rw [← List.mem_reverse, hrev]
    exact List.mem_cons_of_mem _ (List.mem_cons_self _ _)
  have hb0 : 0 ≤ b := clean_money_of_match_nonneg hbsmem hb
  have ha0 : 0 ≤ a := clean_money_of_match_nonneg hasmem ha
  rcases directionOf_cases (normspaces line) as a b prev with hd | hd
  · rw [hD, hC, hbal, hd]
    exact ⟨ha0, le_refl 0, hb0, Or.inr rfl⟩
  · rw [hD, hC, hbal, hd]
    exact ⟨le_refl 0, ha0, hb0, Or.inl rfl⟩

/-- Witness for C10. -/
theorem c10_nonneg_amounts_w :
    ∃ row, parse_line (str "AB 7.00 9.00") none = some row ∧
      (0 ≤ row.Debit ∧ 0 ≤ row.Credit ∧ 0 ≤ row.Balance ∧
        (row.Debit = 0 ∨ row.Credit = 0)) := by
  rcases hp : parse_line (str "AB 7.00 9.00") none with _ | row
  · exact absurd hp (by decide)
  · exact ⟨row, rfl, c10_nonneg_amounts (str "AB 7.00 9.00") none row hp⟩

/-- Claim C4: keyword evidence decides the direction before anything else: a
credit hint anywhere on the (normalized) line forces Credit = Amount and
Debit = 0 for any previous balance, even when a debit hint is also present;
without credit hints a debit hint forces Debit = Amount and Credit = 0. -/
theorem c4_keyword_priority (line : Str) (prev : Option ℚ) (balStr amtStr : Str)
    (rest : List Str) (b a : ℚ)
    (hrev : (moneyMatches (normspaces line)).reverse = balStr :: amtStr :: rest)
    (hb : clean_money balStr = some b) (ha : clean_money amtStr = some a) :
    (has_any (normspaces line) CREDIT_HINTS = true →
      ∃ row, parse_line line prev = some row ∧ row.Credit = a ∧ row.Debit = 0) ∧
    (has_any (normspaces line) CREDIT_HINTS = false →
      has_any (normspaces line) DEBIT_HINTS = true →
      ∃ row, parse_line line prev = some row ∧ row.Debit = a ∧ row.Credit = 0) := by
  constructor
  · intro hc
    refine ⟨_, parse_line_with_eq clean_money line prev hrev hb ha, ?_, ?_⟩ <;>
      rw [directionOf_credit _ _ _ _ _ hc]
  · intro hc hd
    refine ⟨_, parse_line_with_eq clean_money line prev hrev hb ha, ?_, ?_⟩ <;>
      rw [directionOf_debit _ _ _ _ _ hc hd]

/-- Witness for C4 on "CR ATM 20.00 50.00": both a credit hint (CR) and a
debit hint (ATM) are present, and a previous balance is supplied; the credit
hint wins. -/
theorem c4_keyword_priority_w :
    has_any (normspaces (str "CR ATM 20.00 50.00")) CREDIT_HINTS = true ∧
    has_any (normspaces (str "CR ATM 20.00 50.00")) DEBIT_HINTS = true ∧
    (∃ row, parse_line (str "CR ATM 20.00 50.00") (some 0) = some row ∧
      row.Credit = 20 ∧ row.Debit = 0) :=
  ⟨by decide, by decide,
   (c4_keyword_priority (str "CR ATM 20.00 50.00") (some 0) (str "50.00") (str "20.00") []
      50 20 (by decide) (by decide) (by decide)).1 (by decide)⟩

/-- Claim C3 counterexample: on the line "XYZ 300.00 699.50" with previous
balance 1000.00 the code produces Debit = 300, Credit = 0, although under the
claimed tolerance 0.01 neither delta condition holds (|diff - amt| = 600.5,
|diff + amt| = 0.5) and the sign-proximity fallback — no minus before the
amount — would have to produce Credit = 300.  The code's tolerance is 1.00,
not 0.01. -/
theorem c3_tolerance_cx :
    (parse_line (str "XYZ 300.00 699.50") (some 1000)).map (fun r => (r.Debit, r.Credit, r.Balance))
      = some (300, 0, 6995/10) ∧
    ¬(|(6995 : ℚ)/10 - 1000 - 300| ≤ 1/100) ∧
    ¬(|(6995 : ℚ)/10 - 1000 + 300| ≤ 1/100) ∧
    (takeRight 3 (rsplitB (str "300.00") (normspaces (str "XYZ 300.00 699.50"))).1).contains '-'
      = false :=
  ⟨by decide, by decide, by decide, by decide⟩

/-- Claim C3 (amended): balance-delta inference uses the tolerance 1.00 (the
source's Decimal("1.00")), not 0.01: with a previous balance and no keyword
hint, Credit = Amount when |(Balance - Previous) - Amount| ≤ 1.00, else
Debit = Amount when |(Balance - Previous) + Amount| ≤ 1.00, else the
sign-proximity fallback decides. -/
theorem c3_delta_tolerance_one (line : Str) (pb : ℚ) (balStr amtStr : Str)
    (rest : List Str) (b a : ℚ)
    (hrev : (moneyMatches (normspaces line)).reverse = balStr :: amtStr :: rest)
    (hb : clean_money balStr = some b) (ha : clean_money amtStr = some a)
    (hc : has_any (normspaces line) CREDIT_HINTS = false)
    (hd : has_any (normspaces line) DEBIT_HINTS = false) :
    (|b - pb - a| ≤ 1 →
      ∃ row, parse_line line (some pb) = some row ∧ row.Credit = a ∧ row.Debit = 0) ∧
    (¬(|b - pb - a| ≤ 1) → |b - pb + a| ≤ 1 →
      ∃ row, parse_line line (some pb) = some row ∧ row.Debit = a ∧ row.Credit = 0) ∧
    (¬(|b - pb - a| ≤ 1) → ¬(|b - pb + a| ≤ 1) →
      ∃ row, parse_line line (some pb) = some row ∧
        ((takeRight 3 (rsplitB amtStr (normspaces line)).1).contains '-' = true →
            row.Debit = a ∧ row.Credit = 0) ∧
        ((takeRight 3 (rsplitB amtStr (normspaces line)).1).contains '-' = false →
            row.Credit = a ∧ row.Debit = 0)) := by
  refine ⟨?_, ?_, ?_⟩
  · intro h1
    refine ⟨_, parse_line_with_eq clean_money line (some pb) hrev hb ha, ?_, ?_⟩ <;>
      rw [directionOf_some_pb _ _ _ _ _ hc hd, if_pos h1]
  · intro h1 h2
    refine ⟨_, parse_line_with_eq clean_money line (some pb) hrev hb ha, ?_, ?_⟩ <;>
      rw [directionOf_some_pb _ _ _ _ _ hc hd, if_neg h1, if_pos h2]
  · intro h1 h2
    refine ⟨_, parse_line_with_eq clean_money line (some pb) hrev hb ha, ?_, ?_⟩
    · intro hm
      rw [directionOf_some_pb _ _ _ _ _ hc hd, if_neg h1, if_neg h2, if_pos hm]
      exact ⟨rfl, rfl⟩
    · intro hm
      rw [directionOf_some_pb _ _ _ _ _ hc hd, if_neg h1, if_neg h2,
        if_neg (by simpa using hm)]
      exact ⟨rfl, rfl⟩

/-- Witness for the amended C3: previous balance 1000, amounts 300.00 and
balance 1300.50, so diff = 300.50 and |diff - 300| = 0.5 ≤ 1.00 → Credit. -/
theorem c3_delta_tolerance_one_w :
    |(13005 : ℚ)/10 - 1000 - 300| ≤ 1 ∧
    (∃ row, parse_line (str "XYZ 300.00 1300.50") (some 1000) = some row ∧
      row.Credit = 300 ∧ row.Debit = 0) :=
  ⟨by decide,
   (c3_delta_tolerance_one (str "XYZ 300.00 1300.50") 1000 (str "1300.50") (str "300.00") []
      (13005/10) 300 (by decide) (by decide) (by decide) (by decide) (by decide)).1
     (by decide)⟩

/-- Claim C9: with at least two money matches, no credit or debit hint on the
whole (normalized) line, and no previous balance, `parse_line` always assigns
Credit = Amount and Debit = 0: the 12-character windows around the amount are
substrings of the line joined by a space, so they cannot contain a debit hint
the line does not, and the debit outcome of that branch is unreachable. -/
theorem c9_no_prev_defaults_credit (line : Str) (balStr amtStr : Str)
    (rest : List Str) (b a : ℚ)
    (hrev : (moneyMatches (normspaces line)).reverse = balStr :: amtStr :: rest)
    (hb : clean_money balStr = some b) (ha : clean_money amtStr = some a)
    (hc : has_any (normspaces line) CREDIT_HINTS = false)
    (hd : has_any (normspaces line) DEBIT_HINTS = false) :
    ∃ row, parse_line line none = some row ∧ row.Credit = a ∧ row.Debit = 0 := by
  refine ⟨_, parse_line_with_eq clean_money line none hrev hb ha, ?_, ?_⟩ <;>
    rw [directionOf_none _ _ _ _ hc hd]

/-- Witness for C9 on "SHOP 45.00 100.00" (no hints, no previous balance). -/
theorem c9_no_prev_defaults_credit_w :
    has_any (normspaces (str "SHOP 45.00 100.00")) CREDIT_HINTS = false ∧
    has_any (normspaces (str "SHOP 45.00 100.00")) DEBIT_HINTS = false ∧
    (∃ row, parse_line (str "SHOP 45.00 100.00") none = some row ∧
      row.Credit = 45 ∧ row.Debit = 0) :=
  ⟨by decide, by decide,
   c9_no_prev_defaults_credit (str "SHOP 45.00 100.00") (str "100.00") (str "45.00") [] 100 45
     (by decide) (by decide) (by decide) (by decide) (by decide)⟩

/-- Claim C6: if the decimal conversion of either of the two rightmost money
matches fails, `parse_line` returns None, exactly as when there are fewer
than two matches; stated for the conversion-generalised engine (the source's
`clean_money` never fails on a money-grammar match, which is why its
`try/except` is defensive). -/
theorem c6_conversion_failure (conv : Str → Option ℚ) (line : Str) (prev : Option ℚ)
    (balStr amtStr : Str) (rest : List Str)
    (hrev : (moneyMatches (normspaces line)).reverse = balStr :: amtStr :: rest)
    (hfail : conv balStr = none ∨ conv amtStr = none) :
    parse_line_with conv line prev = none := by
  rcases hfail with hf | hf
  · simp [parse_line_with, hrev, hf]
  · rcases hcb : conv balStr with _ | b'
    · simp [parse_line_with, hrev, hcb]
    · simp [parse_line_with, hrev, hcb, hf]

/-- Witness for C6: an always-failing converter on a line with two money
matches yields None. -/
theorem c6_conversion_failure_w :
    (moneyMatches (normspaces (str "AB 1.00 2.00"))).reverse = [str "2.00", str "1.00"] ∧
    parse_line_with (fun _ => none) (str "AB 1.00 2.00") none = none :=
  ⟨by decide,
   c6_conversion_failure (fun _ => none) (str "AB 1.00 2.00") none (str "2.00") (str "1.00") []
     (by decide) (Or.inl rfl)⟩

-- =========================
-- Lemmas: forward-fill
-- =========================

theorem ffillAux_length : ∀ (ds : List Str) (last : Str), (ffillAux last ds).length = ds.length := by
  intro ds
  induction ds with
  | nil => intro last; simp [ffillAux]
  | cons d ds ih => intro last; simp [ffillAux, ih]

theorem ffillAux_get? :
    ∀ (ds : List Str) (last : Str) (i : Nat),
      (ffillAux last ds).get? i
        = (ds.get? i).map
            (fun _ => (ds.take (i + 1)).foldl (fun acc d => if d.isEmpty then acc else d) last) := by
  intro ds
  induction ds with
  | nil => intro last i; simp [ffillAux]
  | cons d ds ih =>
    intro last i
    cases i with
    | zero => simp [ffillAux]
    | succ n =>
      simp only [ffillAux, List.get?_cons_succ, List.take_succ_cons, List.foldl_cons]
      exact ih _ n

theorem fillForward_length (ds : List Str) : (fillForward ds).length = ds.length :=
  ffillAux_length ds []

theorem fillForward_get? (ds : List Str) (i : Nat) :
    (fillForward ds).get? i = (ds.get? i).map (fun _ => lastNonEmpty (ds.take (i + 1))) :=
  ffillAux_get? ds [] i

theorem map_Date_setDates :
    ∀ (rows : List ParsedRow) (ds : List Str), ds.length = rows.length →
      (setDates rows ds).map ParsedRow.Date = ds := by
  intro rows
  induction rows with
  | nil =>
    intro ds h
    rcases ds with _ | ⟨d, ds⟩
    · simp [setDates]
    · simp at h
  | cons r rows ih =>
    intro ds h
    rcases ds with _ | ⟨d, ds⟩
    · simp at h
    · simp only [setDates, List.zipWith_cons_cons, List.map_cons]
      simp only [List.length_cons, Nat.succ.injEq] at h
      exact congrArg (d :: ·) (ih ds h)

theorem parse_lines_to_rows_dates (lines : List Str) :
    (parse_lines_to_rows lines).map ParsedRow.Date
      = fillForward ((assembleRows lines).map ParsedRow.Date) := by
  unfold parse_lines_to_rows
  apply map_Date_setDates
  rw [fillForward_length, List.length_map]

/-- Claim C5: the final pass forward-fills empty dates: the example
["01-01-23","","","02-01-23",""] fills to
["01-01-23","01-01-23","01-01-23","02-01-23","02-01-23"]; in general the pass
preserves length, entry i of the filled column is the last non-empty date
among the first i+1 entries (so an entry before the first non-empty date
stays empty, since `lastNonEmpty` of an all-empty prefix is ""), and
`parse_lines_to_rows` applies exactly this pass to the assembled rows'
dates. -/
theorem c5_forward_fill :
    fillForward [str "01-01-23", [], [], str "02-01-23", []]
      = [str "01-01-23", str "01-01-23", str "01-01-23", str "02-01-23", str "02-01-23"] ∧
    (∀ ds : List Str, (fillForward ds).length = ds.length) ∧
    (∀ (ds : List Str) (i : Nat),
      (fillForward ds).get? i = (ds.get? i).map (fun _ => lastNonEmpty (ds.take (i + 1)))) ∧
    (∀ lines : List Str, (parse_lines_to_rows lines).map ParsedRow.Date
      = fillForward ((assembleRows lines).map ParsedRow.Date)) :=
  ⟨by decide, fillForward_length, fillForward_get?, parse_lines_to_rows_dates⟩

-- =========================
-- Claim C7: the assembler's frame on transaction lines
-- =========================

/-- Claim C7: a transaction line (a line `parse_line` accepts, hence with
money matches) leaves `pending_date` unchanged; it clears `pending_desc`,
updates `prev_balance` to the row's balance, and appends the row, whose date
is the pending date exactly when the row's own date extraction is empty.  The
date-only branch is not taken because the line has money matches. -/
theorem c7_pending_date_frame (st : AState) (ln : Str) (r : ParsedRow)
    (hmoney : (moneyMatches ln).isEmpty = false)
    (hp : parse_line ln st.prev_balance = some r) :
    stepLine st ln = { rows := st.rows ++ [absorbPending st r]
                       prev_balance := some r.Balance
                       pending_desc := []
                       pending_date := st.pending_date } ∧
    (absorbPending st r).Date = (if r.Date = [] then st.pending_date else r.Date) := by
  constructor
  · simp only [stepLine]
    rw [if_neg (by simp [hmoney])]
    simp only [hp]
  · simp only [absorbPending]
    rcases hd : r.Date with _ | ⟨c, cs⟩ <;> rcases hpd : st.pending_date with _ | ⟨e, es⟩ <;>
      simp [hd, hpd]

/-- Witness for C7: a pending date "01-01-23" survives the transaction line
"XYZ 500.00 4500.00", which itself has no date, so the emitted row gets the
pending date. -/
theorem c7_pending_date_frame_w :
    ∃ r, parse_line (str "XYZ 500.00 4500.00") none = some r ∧
      (stepLine (AState.mk [] none [] (str "01-01-23")) (str "XYZ 500.00 4500.00")
          = { rows := ([] : List ParsedRow)
                ++ [absorbPending (AState.mk [] none [] (str "01-01-23")) r]
              prev_balance := some r.Balance
              pending_desc := []
              pending_date := str "01-01-23" } ∧
        (absorbPending (AState.mk [] none [] (str "01-01-23")) r).Date
          = (if r.Date = [] then str "01-01-23" else r.Date)) := by
  rcases hp : parse_line (str "XYZ 500.00 4500.00") none with _ | r
  · exact absurd hp (by decide)
  · exact ⟨r, rfl,
      c7_pending_date_frame (AState.mk [] none [] (str "01-01-23"))
        (str "XYZ 500.00 4500.00") r (by decide) hp⟩

-- =========================
-- Claim C8: the spatial line clusterer
-- =========================

/-- Claim C8: the clusterer sorts words by (y, x), starts a new line exactly
when a word's y differs from the current line's anchor y by more than the
threshold (10.0), and orders each finished line by x: on words with
y-centers 100, 102, 101 and 140 it produces exactly 2 lines, the first with
its three words re-ordered by x. -/
theorem c8_cluster_two_lines :
    easyocr_cluster [(101, 5, str "C"), (140, 1, str "D"), (100, 9, str "A"), (102, 3, str "B")]
      = [str "B C A", str "D"] ∧
    (easyocr_cluster
        [(101, 5, str "C"), (140, 1, str "D"), (100, 9, str "A"), (102, 3, str "B")]).length
      = 2 :=
  ⟨by decide, by decide⟩
